import Mathlib

/-!
# Verification of the Raft node core (`src/raft/node.cpp`)

A shallow embedding of `NodeImpl` from `node.cpp`: the node state observable by
the claims (role, terms, votes, leader, configuration, log, snapshot bookkeeping,
commit-manager indices, stable storage) and the operations the claims are about
(`step_down`, `set_peer`, `add_peer`, `remove_peer`, the three RPC handlers,
`on_snapshot_load_done`, `on_snapshot_save_done`).

Collaborators whose code is not in the repository snapshot (log manager, commit
manager, configuration manager, replicator group, vote context) are modelled
from their contracts in the specification; their definitions carry a
`Modelled from the spec:` doc comment.  Timers, reference counting, RPC wiring
and disk threads are external effects with no bearing on the claims' state and
are not part of the state.  `CHECK(...)` assertions abort the process on
failure; the embedding gives the post-state of executions in which they pass,
and is a plain pass-through at the checked point.
-/

namespace RaftNode

/-- Peer identity (`PeerId`: endpoint + replica tag), abstracted to a number. -/
abbrev PeerId := Nat

/-- `errno` values as on the platform the source targets (Linux). -/
def EPERM : Int := 1

def EAGAIN : Int := 11

def EINVAL : Int := 22

def ETIMEDOUT : Int := 110

def ESTALE : Int := 116

/-- Node roles (`enum State` in `node.h`, used throughout `node.cpp`). -/
inductive NodeState
  | SHUTDOWN
  | FOLLOWER
  | CANDIDATE
  | LEADER
deriving DecidableEq, Repr

/-- Log entry types (`ENTRY_TYPE_*`).  The wire `EntryMeta.type()` can carry
`ENTRY_TYPE_UNKNOWN`, which `handle_append_entries_request` refuses to
materialize. -/
inductive EntryType
  | UNKNOWN
  | NO_OP
  | DATA
  | ADD_PEER
  | REMOVE_PEER
deriving DecidableEq, Repr

/-- A materialized `LogEntry`: term, type, peer list (for conf entries) and the
opaque data buffer (for data entries). -/
structure LogEntry where
  term : Int
  type : EntryType
  peers : List PeerId
  data : List Nat
deriving DecidableEq, Repr

/-- Modelled from the spec: the log manager's durable ordered sequence of
entries.  `first` is `first_log_index`; the entry stored at list position `i`
has log index `first + i`.  Index assignment is monotone: appended entries get
indices `last_log_index + 1, ...` (spec section 6, log manager contract). -/
structure LogMgr where
  first : Int
  entries : List LogEntry
deriving DecidableEq, Repr

/-- `log_manager->last_log_index()`: `first + length - 1`; one below `first`
when the log is empty. -/
def lastLog (l : LogMgr) : Int := l.first + l.entries.length - 1

/-- Modelled from the spec: `log_manager->get_term(index)`, the stored term for
an index currently in the log, `0` outside the stored range. -/
def getTerm (l : LogMgr) (i : Int) : Int :=
  if l.first ≤ i ∧ i ≤ lastLog l then (l.entries.map LogEntry.term).getD (i - l.first).toNat 0
  else 0

/-- Modelled from the spec: `log_manager->truncate_prefix(first_index_kept)`
drops every entry below `first_index_kept`; a no-op when nothing is below it. -/
def truncate_prefix (k : Int) (l : LogMgr) : LogMgr :=
  if k ≤ l.first then l else { first := k, entries := l.entries.drop (k - l.first).toNat }

/-- Modelled from the spec: `log_manager->truncate_suffix(last_index_kept)`
drops every entry above `last_index_kept`; a no-op when nothing is above it. -/
def truncate_suffix (k : Int) (l : LogMgr) : LogMgr :=
  if lastLog l ≤ k then l else { first := l.first, entries := l.entries.take (k + 1 - l.first).toNat }

/-- Modelled from the spec: `log_manager->append_entries(batch)` places the
batch at indices `last_log_index + 1, ...` in order. -/
def appendBatch (l : LogMgr) (b : List LogEntry) : LogMgr :=
  { l with entries := l.entries ++ b }

/-- `SnapshotMeta`: last included index/term and the peer set at that index. -/
structure SnapshotMeta where
  last_included_index : Int
  last_included_term : Int
  last_configuration : List PeerId
deriving DecidableEq, Repr

/-- The node state mutated under `_mutex` in `node.cpp`, together with the
stable-storage pair and the commit-manager indices it drives.  `conf` is
`_conf.second` (the peer set), `conf_index` is `_conf.first` (its epoch index),
`conf_ctx` is the `ConfigurationCtx` peer snapshot (`[]` iff `empty()`),
`config_snapshot` is the configuration manager's snapshot pair. -/
structure NodeSt where
  state : NodeState
  current_term : Int
  voted_id : Option PeerId
  leader_id : Option PeerId
  server_id : PeerId
  conf : List PeerId
  conf_index : Int
  conf_ctx : List PeerId
  log : LogMgr
  config_snapshot : Int × List PeerId
  last_snapshot_index : Int
  last_snapshot_term : Int
  snapshot_saving : Bool
  loading_snapshot_meta : Option SnapshotMeta
  last_leader_timestamp : Int
  committed_index : Int
  pending_index : Int
  stable_term : Int
  stable_voted : Option PeerId
  vote_grants : List PeerId
  vote_size : Nat
deriving DecidableEq, Repr

/-- `Configuration::equal(std::vector<PeerId>)`: equality as peer sets. -/
def confEqual (c : List PeerId) (l : List PeerId) : Bool :=
  c.all (· ∈ l) && l.all (· ∈ c)

/-- `Configuration::contain(std::vector<PeerId>)`: every listed peer is a
member. -/
def confContain (c : List PeerId) (l : List PeerId) : Bool :=
  l.all (· ∈ c)

/-- Modelled from the spec: the conf-change entries currently in the log, as
(log index, peer set) pairs, for the configuration manager. -/
def confEntriesOf (l : LogMgr) : List (Int × List PeerId) :=
  l.entries.enum.filterMap fun p =>
    if p.2.type = EntryType.ADD_PEER ∨ p.2.type = EntryType.REMOVE_PEER then
      some (l.first + (p.1 : Int), p.2.peers)
    else none

/-- Modelled from the spec: the configuration manager's most recent pair, the
greatest-index conf entry in the log or else the snapshot pair. -/
def latestConfPair (s : NodeSt) : Int × List PeerId :=
  match (confEntriesOf s.log).getLast? with
  | some p => if s.config_snapshot.1 ≤ p.1 then p else s.config_snapshot
  | none => s.config_snapshot

/-- Modelled from the spec: `log_manager->check_and_set_configuration(&_conf)`
reloads `_conf` from the configuration manager and returns true iff the active
configuration changed. -/
def check_and_set_configuration (s : NodeSt) : Bool × NodeSt :=
  if (latestConfPair s).1 ≠ s.conf_index then
    (true, { s with conf_index := (latestConfPair s).1, conf := (latestConfPair s).2 })
  else (false, s)

/-- Modelled from the spec: `config_manager->get_configuration(index)`, the
greatest pair at or below `index` among the snapshot pair and the log's conf
entries, `(0, [])` when none qualifies. -/
def getConfigurationAt (s : NodeSt) (i : Int) : Int × List PeerId :=
  ((s.config_snapshot :: confEntriesOf s.log).filter fun p => p.1 ≤ i).foldl
    (fun acc p => if acc.1 ≤ p.1 then p else acc) (0, [])

/-- `NodeImpl::step_down(term)` (`node.cpp:1043`): cancel role-specific timers
and leader machinery (external effects), become `FOLLOWER`, reset `_leader_id`
and `_voted_id`, set `_current_term = term`, reset `_conf_ctx`, and persist
`(term, voted_for = empty)` to stable storage.  Note the source assigns
`_current_term = term` unconditionally, whatever the relation between `term`
and the current term. -/
def step_down (term : Int) (s : NodeSt) : NodeSt :=
  { s with
    state := NodeState.FOLLOWER
    leader_id := none
    current_term := term
    voted_id := none
    conf_ctx := []
    stable_term := term
    stable_voted := none }

/-- `NodeImpl::set_peer(old_peers, new_peers)` (`node.cpp:679`), returning the
`errno`-style result and the post-state. -/
def set_peer (old_peers new_peers : List PeerId) (s : NodeSt) : Int × NodeSt :=
  if s.state = NodeState.SHUTDOWN then (EINVAL, s)
  else if s.conf = [] ∧ old_peers = [] then
    let s1 := { s with conf := new_peers }
    (0, step_down 1 s1)
  else if s.state = NodeState.LEADER ∧ s.conf_ctx ≠ [] then (EINVAL, s)
  else if ¬ confEqual s.conf old_peers then (EINVAL, s)
  else if new_peers.length ≥ old_peers.length / 2 + 1 then (EINVAL, s)
  else if ¬ confContain s.conf new_peers then (EINVAL, s)
  else
    let s1 := step_down (s.current_term + 1) s
    (0, { s1 with conf := new_peers })

/-- Result of a client API call (`add_peer` / `remove_peer`): the error code
delivered synchronously to `done` via `_fsm_caller->on_cleared` (if any), the
log entry appended by this call (if any), and the post-state. -/
structure ApiOut where
  done_code : Option Int
  appended : Option LogEntry
  s : NodeSt
deriving DecidableEq, Repr

/-- `NodeImpl::append(entry, done)` (`node.cpp:1199`): register the pending
application (commit manager, not tracked), hand the entry to the log manager,
and when the active configuration changed record `_conf_ctx` with the old peer
set. -/
def node_append (entry : LogEntry) (s : NodeSt) : NodeSt :=
  let old_peers :=
    if entry.type = EntryType.ADD_PEER ∨ entry.type = EntryType.REMOVE_PEER then s.conf else []
  let s1 := { s with log := appendBatch s.log [entry] }
  let r := check_and_set_configuration s1
  if r.1 then { r.2 with conf_ctx := old_peers } else r.2

/-- `NodeImpl::add_peer(old_peers, peer, done)` (`node.cpp:574`).  On the
success path the call only starts the new replicator and schedules the
caught-up callback (modelled from the spec: the replicator group's
`add_replicator` / `wait_caughtup` enqueue successfully); the `AddPeer` entry
is appended later by `on_caughtup`. -/
def add_peer (old_peers : List PeerId) (peer : PeerId) (s : NodeSt) : ApiOut :=
  if s.state ≠ NodeState.LEADER then ⟨some EPERM, none, s⟩
  else if s.conf_ctx ≠ [] then ⟨some EINVAL, none, s⟩
  else if ¬ confEqual s.conf old_peers then ⟨some EINVAL, none, s⟩
  else if peer ∈ s.conf then ⟨some EINVAL, none, s⟩
  else ⟨none, none, s⟩

/-- `NodeImpl::remove_peer(old_peers, peer, done)` (`node.cpp:632`). -/
def remove_peer (old_peers : List PeerId) (peer : PeerId) (s : NodeSt) : ApiOut :=
  if s.state ≠ NodeState.LEADER then ⟨some EPERM, none, s⟩
  else if s.conf_ctx ≠ [] then ⟨some EAGAIN, none, s⟩
  else if ¬ confEqual s.conf old_peers then ⟨some EINVAL, none, s⟩
  else if peer ∉ s.conf then ⟨some EINVAL, none, s⟩
  else
    let entry : LogEntry := ⟨s.current_term, EntryType.REMOVE_PEER, s.conf.filter (· ≠ peer), []⟩
    ⟨none, some entry, node_append entry s⟩

/-- `RequestVoteRequest`; `server_id` is the parsed candidate id, `none` when
`PeerId::parse` fails on the wire string. -/
structure RequestVoteReq where
  server_id : Option PeerId
  term : Int
  last_log_term : Int
  last_log_index : Int
deriving DecidableEq, Repr

/-- `RequestVoteResponse`. -/
structure RequestVoteRes where
  term : Int
  granted : Bool
deriving DecidableEq, Repr

/-- `NodeImpl::last_log_term()` (`node.cpp:967`): the term of the last log
entry, or `_last_snapshot_term` when the log is empty. -/
def node_last_log_term (s : NodeSt) : Int :=
  if s.log.first ≤ lastLog s.log then getTerm s.log (lastLog s.log) else s.last_snapshot_term

/-- The `log_is_ok` test of `handle_request_vote_request` (`node.cpp:1237`). -/
def logIsOk (req : RequestVoteReq) (s : NodeSt) : Prop :=
  req.last_log_term > node_last_log_term s ∨
    (req.last_log_term = node_last_log_term s ∧ req.last_log_index ≥ lastLog s.log)

instance (req : RequestVoteReq) (s : NodeSt) : Decidable (logIsOk req s) := by
  unfold logIsOk; infer_instance

/-- `NodeImpl::handle_request_vote_request` (`node.cpp:1231`): returns the
handler's return code, the response it filled in (absent on a parse error) and
the post-state. -/
def handle_request_vote_request (req : RequestVoteReq) (s : NodeSt) :
    Int × Option RequestVoteRes × NodeSt :=
  match req.server_id with
  | none => (EINVAL, none, s)
  | some cand =>
    let s1 :=
      if s.leader_id ≠ none then s
      else if req.term ≥ s.current_term then
        let sa := if req.term > s.current_term then step_down req.term s else s
        if logIsOk req s ∧ sa.voted_id = none then
          { sa with voted_id := some cand, stable_voted := some cand }
        else sa
      else s
    (0, some ⟨s1.current_term, decide (req.term = s1.current_term ∧ s1.voted_id = some cand)⟩, s1)

/-- The wire `EntryMeta` of an `AppendEntries` request: term, type, peers and
the optional payload length (`has_data_len`). -/
structure EntryMeta where
  term : Int
  type : EntryType
  peers : List PeerId
  data_len : Option Nat
deriving DecidableEq, Repr

/-- `AppendEntriesRequest` (the payload bytes travel in a separate buffer). -/
structure AppendEntriesReq where
  server_id : Option PeerId
  term : Int
  prev_log_index : Int
  prev_log_term : Int
  entries : List EntryMeta
  committed_index : Int
deriving DecidableEq, Repr

/-- `AppendEntriesResponse`. -/
structure AppendEntriesRes where
  term : Int
  success : Bool
  last_log_index : Int
deriving DecidableEq, Repr

/-- Materialize one wire entry (`node.cpp:1385-1405`): build the `LogEntry` and
cut `data_len` bytes from the shared payload buffer when present. -/
def materialize (m : EntryMeta) (buf : List Nat) : LogEntry × List Nat :=
  match m.data_len with
  | some len => (⟨m.term, m.type, m.peers, buf.take len⟩, buf.drop len)
  | none => (⟨m.term, m.type, m.peers, []⟩, buf)

/-- The entries loop of `handle_append_entries_request` (`node.cpp:1356-1407`):
walk the wire entries at indices `prevIdx + 1, ...`; skip those below
`first_log_index` and those already present with the same term; truncate the
suffix on a term conflict; materialize the rest into the batch
(`ENTRY_TYPE_UNKNOWN` entries are dropped).  Returns the (possibly truncated)
log, the batch, the remaining payload buffer and whether a truncation
happened. -/
def processEntries : List EntryMeta → Int → LogMgr → List Nat →
    LogMgr × List LogEntry × List Nat × Bool
  | [], _, log, buf => (log, [], buf, false)
  | m :: rest, prevIdx, log, buf =>
    let index := prevIdx + 1
    if index < log.first then processEntries rest index log buf
    else if lastLog log ≥ index ∧ getTerm log index = m.term then
      processEntries rest index log buf
    else
      let tp : LogMgr × Bool :=
        if lastLog log ≥ index then (truncate_suffix (index - 1) log, true) else (log, false)
      if m.type = EntryType.UNKNOWN then
        let r := processEntries rest index tp.1 buf
        (r.1, r.2.1, r.2.2.1, tp.2 || r.2.2.2)
      else
        let p := materialize m buf
        let r := processEntries rest index tp.1 p.2
        (r.1, p.1 :: r.2.1, r.2.2.1, tp.2 || r.2.2.2)

/-- The final follower log after the entries loop and the batch hand-off to the
log manager: the (possibly truncated) loop log with the batch appended. -/
def peFinalLog (metas : List EntryMeta) (prevIdx : Int) (log : LogMgr) (buf : List Nat) :
    LogMgr :=
  appendBatch (processEntries metas prevIdx log buf).1
    (processEntries metas prevIdx log buf).2.1

/-- The per-position skip conditions of the entries loop against a log `L`:
each wire entry in turn lies below `first_log_index` or is already present at
its index with the same term. -/
def allSkippable (L : LogMgr) : Int → List EntryMeta → Prop
  | _, [] => True
  | prevIdx, m :: rest =>
    (prevIdx + 1 < L.first ∨
      (prevIdx + 1 ≤ lastLog L ∧ getTerm L (prevIdx + 1) = m.term)) ∧
    allSkippable L (prevIdx + 1) rest

/-- Step-down stage of `handle_append_entries_request` (`node.cpp:1318`). -/
def ae_stepdown (req : AppendEntriesReq) (s : NodeSt) : NodeSt :=
  if req.term > s.current_term ∨ s.state ≠ NodeState.FOLLOWER then step_down req.term s else s

/-- Leader-adoption stage (`node.cpp:1323`): save the current leader if none. -/
def ae_adopt_leader (sid : PeerId) (s : NodeSt) : NodeSt :=
  if s.leader_id = none then { s with leader_id := some sid } else s

/-- Append stage (`node.cpp:1356-1425`): run the entries loop, hand the batch to
the log manager, and refresh the active configuration exactly when the loop
truncated or the batch was non-empty (each truncation and a non-empty
`append(entries)` call `check_and_set_configuration`; the last call wins). -/
def ae_do_append (req : AppendEntriesReq) (buf : List Nat) (s : NodeSt) : NodeSt :=
  let r := processEntries req.entries req.prev_log_index s.log buf
  let s3 := { s with log := appendBatch r.1 r.2.1 }
  if r.2.1 ≠ [] ∨ r.2.2.2 then (check_and_set_configuration s3).2 else s3

/-- The `do { ... } while (0)` body of `handle_append_entries_request`
(`node.cpp:1307-1426`), producing the `success` flag and the state after it. -/
def ae_main (sid : PeerId) (req : AppendEntriesReq) (buf : List Nat) (s : NodeSt) :
    Bool × NodeSt :=
  if req.term < s.current_term then (false, s)
  else
    let s2 := ae_adopt_leader sid (ae_stepdown req s)
    if req.prev_log_index > lastLog s2.log then (false, s2)
    else if req.prev_log_index ≥ s2.log.first ∧
        getTerm s2.log req.prev_log_index ≠ req.prev_log_term then (false, s2)
    else (true, ae_do_append req buf s2)

/-- `NodeImpl::handle_append_entries_request` (`node.cpp:1293`): returns the
handler's return code, the response (absent on a parse error) and the
post-state.  `now` is `base::monotonic_time_ms()` at the success point. -/
def handle_append_entries_request (req : AppendEntriesReq) (buf : List Nat) (now : Int)
    (s : NodeSt) : Int × Option AppendEntriesRes × NodeSt :=
  match req.server_id with
  | none => (EINVAL, none, s)
  | some sid =>
    let p := ae_main sid req buf s
    let res : AppendEntriesRes := ⟨p.2.current_term, p.1, lastLog p.2.log⟩
    let sG :=
      if p.1 then
        { p.2 with
          committed_index := max p.2.committed_index req.committed_index
          last_leader_timestamp := now }
      else p.2
    (0, some res, sG)

/-- `InstallSnapshotRequest`; ids are pre-parsed, `none` marking a string
`PeerId::parse` rejects. -/
structure InstallSnapshotReq where
  server_id : Option PeerId
  term : Int
  last_included_log_index : Int
  last_included_log_term : Int
  peers : List (Option PeerId)
  uri : List Nat
deriving DecidableEq, Repr

/-- `InstallSnapshotResponse`. -/
structure InstallSnapshotRes where
  term : Int
  success : Bool
deriving DecidableEq, Repr

/-- Parse the request's peer strings; `none` when any of them is malformed
(`node.cpp:1541-1549`). -/
def parsePeers : List (Option PeerId) → Option (List PeerId)
  | [] => some []
  | none :: _ => none
  | some p :: rest => (parsePeers rest).map (p :: ·)

/-- The locked check section of `NodeImpl::handle_install_snapshot_request`
(`node.cpp:1474-1554`), which decides everything the claims observe: return
code, the response as filled in under the lock (`success` is upgraded later by
`InstallSnapshotDone` only if the copy and load succeed), and the post-state
including the stored `_loading_snapshot_meta` on the proceed path.  The
subsequent copy/load is collaborator I/O outside the lock. -/
def handle_install_snapshot_request (req : InstallSnapshotReq) (s : NodeSt) :
    Int × Option InstallSnapshotRes × NodeSt :=
  match req.server_id with
  | none => (EINVAL, none, s)
  | some sid =>
    let res0 : InstallSnapshotRes := ⟨s.current_term, false⟩
    if s.loading_snapshot_meta ≠ none then (EAGAIN, some res0, s)
    else if req.term < s.current_term then (0, some res0, s)
    else
      let s1 :=
        if req.term > s.current_term ∨ s.state ≠ NodeState.FOLLOWER then
          step_down s.current_term s
        else s
      let res1 : InstallSnapshotRes :=
        if req.term > s.current_term ∨ s.state ≠ NodeState.FOLLOWER then
          ⟨s.current_term, false⟩
        else res0
      let s2 := if s1.leader_id = none then { s1 with leader_id := some sid } else s1
      if req.last_included_log_index = s2.last_snapshot_index ∧
          req.last_included_log_term = s2.last_snapshot_term then
        (0, some { res1 with success := true }, s2)
      else
        match parsePeers req.peers with
        | none => (EINVAL, some res1, s2)
        | some ps =>
          let meta : SnapshotMeta := ⟨req.last_included_log_index, req.last_included_log_term, ps⟩
          (0, some res1, { s2 with loading_snapshot_meta := some meta })

/-- `NodeImpl::on_snapshot_load_done` (`node.cpp:83`): adopt the pending meta,
discard the whole log when it is shorter than the snapshot or disagrees at
`last_snapshot_index`, truncate the covered prefix, install the snapshot
configuration, and reset the commit manager's pending index.  The
`CHECK(_loading_snapshot_meta)` makes the `none` case unreachable; it is a
pass-through here. -/
def on_snapshot_load_done (s : NodeSt) : NodeSt :=
  match s.loading_snapshot_meta with
  | none => s
  | some meta =>
    let lsi := meta.last_included_index
    let lst := meta.last_included_term
    let s1 := { s with last_snapshot_index := lsi, last_snapshot_term := lst }
    let log1 :=
      if lastLog s1.log < lsi ∨ (s1.log.first ≤ lsi ∧ getTerm s1.log lsi ≠ lst) then
        truncate_suffix lsi ( truncate_prefix (lsi + 1) s1.log)
      else s1.log
    let log2 := if log1.first ≤ lsi then truncate_prefix (lsi + 1) log1 else log1
    let s2 := { s1 with log := log2, config_snapshot := (lsi, meta.last_configuration) }
    let s3 := (check_and_set_configuration s2).2
    { s3 with pending_index := lsi + 1, loading_snapshot_meta := none }

/-- `NodeImpl::on_snapshot_save_done(last_included_index, writer)`
(`node.cpp:123`): returns the result code, whether `writer->set_error` was
invoked, and the post-state.  `writer->save_meta()` is storage I/O modelled as
succeeding. -/
def on_snapshot_save_done (last_included_index : Int) (s : NodeSt) : Int × Bool × NodeSt :=
  if last_included_index ≤ s.last_snapshot_index then
    (ESTALE, true, { s with snapshot_saving := false })
  else
    let s1 :=
      { s with
        last_snapshot_index := last_included_index
        last_snapshot_term := getTerm s.log last_included_index }
    let pair := getConfigurationAt s1 last_included_index
    let s2 := if pair.1 ≠ 0 then { s1 with config_snapshot := pair } else s1
    let s3 :=
      if s2.log.first ≤ last_included_index then
        { s2 with log := truncate_prefix (last_included_index + 1) s2.log }
      else s2
    let s4 := (check_and_set_configuration s3).2
    (0, false, { s4 with snapshot_saving := false })

/-- Modelled from the spec: `VoteContext::quorum()`, a strict majority of the
peer count recorded at election start. -/
def vote_quorum (s : NodeSt) : Bool := s.vote_grants.length ≥ s.vote_size / 2 + 1

/-- `NodeImpl::become_leader` (`node.cpp:1100`): adopt the leader role, point
`_leader_id` at self, reset the commit manager's pending index past the last
log index, and append the configuration-marker `AddPeer` entry carrying the
current peer set.  Replicator/timer initialisation is external. -/
def become_leader (s : NodeSt) : NodeSt :=
  let s1 := { s with state := NodeState.LEADER, leader_id := some s.server_id }
  let s2 := { s1 with pending_index := lastLog s1.log + 1 }
  node_append ⟨s2.current_term, EntryType.ADD_PEER, s2.conf, []⟩ s2

/-- `NodeImpl::handle_request_vote_response(peer, term, response)`
(`node.cpp:899`). -/
def handle_request_vote_response (peer : PeerId) (term resTerm : Int) (granted : Bool)
    (s : NodeSt) : NodeSt :=
  if s.state ≠ NodeState.CANDIDATE then s
  else if term ≠ s.current_term then s
  else if resTerm > s.current_term then step_down resTerm s
  else if granted then
    let s1 :=
      { s with vote_grants := if peer ∈ s.vote_grants then s.vote_grants else peer :: s.vote_grants }
    if vote_quorum s1 then become_leader s1 else s1
  else s

/-! ## Concrete states for witnesses and counterexamples -/

/-- A baseline node state: a freshly initialised follower with an empty log. -/
def exBase : NodeSt where
  state := NodeState.FOLLOWER
  current_term := 0
  voted_id := none
  leader_id := none
  server_id := 1
  conf := []
  conf_index := 0
  conf_ctx := []
  log := { first := 1, entries := [] }
  config_snapshot := (0, [])
  last_snapshot_index := 0
  last_snapshot_term := 0
  snapshot_saving := false
  loading_snapshot_meta := none
  last_leader_timestamp := 0
  committed_index := 0
  pending_index := 1
  stable_term := 0
  stable_voted := none
  vote_grants := []
  vote_size := 0

/-- A node that persisted term 2 and has an empty configuration. -/
def exC1 : NodeSt := { exBase with current_term := 2, stable_term := 2 }

/-- A follower at term 3 about to receive an `InstallSnapshot` at term 5. -/
def exC2 : NodeSt := { exBase with current_term := 3, stable_term := 3 }

/-- The `InstallSnapshot` request for the C2 scenarios. -/
def reqC2 : InstallSnapshotReq :=
  ⟨some 2, 5, 7, 4, [some 2], []⟩

/-- A follower that granted its vote to peer 2 at term 5 and then adopted
peer 7 as leader from that leader's heartbeat. -/
def exC3 : NodeSt :=
  { exBase with current_term := 5, stable_term := 5, leader_id := some 7, voted_id := some 2 }

/-- Peer 2 asks the same follower for its vote again in the same term. -/
def reqC3 : RequestVoteReq := ⟨some 2, 5, 0, 0⟩

/-- A follower at term 5 with no recorded vote and no trusted leader. -/
def exC4 : NodeSt := { exBase with current_term := 5, stable_term := 5 }

/-- A stale-term vote request whose log is nevertheless up to date. -/
def reqC4 : RequestVoteReq := ⟨some 2, 1, 10, 10⟩

/-- A node whose log starts at index 10 (one entry of term 3) with a pending
snapshot meta at index 5, term 2: the log holds no entry at index 5. -/
def exC5 : NodeSt :=
  { exBase with
    loading_snapshot_meta := some ⟨5, 2, [1]⟩
    log := { first := 10, entries := [⟨3, EntryType.DATA, [], []⟩] } }

/-- A node with a local snapshot at index 10 and a save in flight. -/
def exC6 : NodeSt :=
  { exBase with last_snapshot_index := 10, last_snapshot_term := 1, snapshot_saving := true }

/-- A three-peer follower at term 4. -/
def exC7 : NodeSt :=
  { exBase with conf := [1, 2, 3], conf_index := 1, current_term := 4, stable_term := 4 }

/-- A leader whose configuration is empty while a conf-change is recorded as in
flight. -/
def exC8 : NodeSt :=
  { exBase with state := NodeState.LEADER, conf_ctx := [9], current_term := 4, stable_term := 4 }

/-- A leader of `{1, 2}` with a conf-change in flight. -/
def exC8w : NodeSt :=
  { exBase with
    state := NodeState.LEADER, conf := [1, 2], conf_index := 1, conf_ctx := [1, 2],
    current_term := 4, stable_term := 4, leader_id := some 1 }

/-- A follower that already trusts leader 9 at term 1, log empty. -/
def exC9 : NodeSt :=
  { exBase with current_term := 1, stable_term := 1, leader_id := some 9 }

/-- An `AppendEntries` request carrying an `UNKNOWN`-type entry followed by a
data entry, both at term 1. -/
def reqC9 : AppendEntriesReq :=
  ⟨some 9, 1, 0, 0, [⟨1, EntryType.UNKNOWN, [], none⟩, ⟨1, EntryType.DATA, [], none⟩], 0⟩

/-- A data-only `AppendEntries` request used by the idempotence witness. -/
def reqC9w : AppendEntriesReq :=
  ⟨some 9, 1, 0, 0, [⟨1, EntryType.DATA, [], some 2⟩], 0⟩

/-- A heartbeat request (no entries) raising the committed index to 7. -/
def reqC10 : AppendEntriesReq := ⟨some 3, 0, 0, 0, [], 7⟩

/-! ## Frame lemmas for the collaborator refresh steps -/

@[simp]
theorem casc_current_term (s : NodeSt) :
    ((check_and_set_configuration s).2).current_term = s.current_term := by
  unfold check_and_set_configuration
  split <;> rfl

@[simp]
theorem casc_state (s : NodeSt) : ((check_and_set_configuration s).2).state = s.state := by
  unfold check_and_set_configuration
  split <;> rfl

@[simp]
theorem casc_log (s : NodeSt) : ((check_and_set_configuration s).2).log = s.log := by
  unfold check_and_set_configuration
  split <;> rfl

@[simp]
theorem casc_leader_id (s : NodeSt) :
    ((check_and_set_configuration s).2).leader_id = s.leader_id := by
  unfold check_and_set_configuration
  split <;> rfl

@[simp]
theorem casc_voted_id (s : NodeSt) :
    ((check_and_set_configuration s).2).voted_id = s.voted_id := by
  unfold check_and_set_configuration
  split <;> rfl

@[simp]
theorem casc_committed_index (s : NodeSt) :
    ((check_and_set_configuration s).2).committed_index = s.committed_index := by
  unfold check_and_set_configuration
  split <;> rfl

@[simp]
theorem casc_last_leader_timestamp (s : NodeSt) :
    ((check_and_set_configuration s).2).last_leader_timestamp = s.last_leader_timestamp := by
  unfold check_and_set_configuration
  split <;> rfl

@[simp]
theorem casc_pending_index (s : NodeSt) :
    ((check_and_set_configuration s).2).pending_index = s.pending_index := by
  unfold check_and_set_configuration
  split <;> rfl

@[simp]
theorem casc_last_snapshot_index (s : NodeSt) :
    ((check_and_set_configuration s).2).last_snapshot_index = s.last_snapshot_index := by
  unfold check_and_set_configuration
  split <;> rfl

@[simp]
theorem casc_last_snapshot_term (s : NodeSt) :
    ((check_and_set_configuration s).2).last_snapshot_term = s.last_snapshot_term := by
  unfold check_and_set_configuration
  split <;> rfl

@[simp]
theorem casc_loading (s : NodeSt) :
    ((check_and_set_configuration s).2).loading_snapshot_meta = s.loading_snapshot_meta := by
  unfold check_and_set_configuration
  split <;> rfl

@[simp]
theorem node_append_current_term (e : LogEntry) (s : NodeSt) :
    (node_append e s).current_term = s.current_term := by
  unfold node_append
  dsimp only
  split <;> simp

@[simp]
theorem ae_adopt_leader_current_term (sid : PeerId) (s : NodeSt) :
    (ae_adopt_leader sid s).current_term = s.current_term := by
  unfold ae_adopt_leader
  split <;> rfl

@[simp]
theorem ae_do_append_current_term (req : AppendEntriesReq) (buf : List Nat) (s : NodeSt) :
    (ae_do_append req buf s).current_term = s.current_term := by
  unfold ae_do_append
  dsimp only
  split <;> simp

theorem ae_stepdown_current_term_ge (req : AppendEntriesReq) (s : NodeSt)
    (h : s.current_term ≤ req.term) :
    s.current_term ≤ (ae_stepdown req s).current_term := by
  unfold ae_stepdown
  split <;> simp [step_down]
  exact h

@[simp]
theorem become_leader_current_term (s : NodeSt) :
    (become_leader s).current_term = s.current_term := by
  unfold become_leader
  dsimp only
  simp

theorem install_current_term (req : InstallSnapshotReq) (s : NodeSt) :
    (handle_install_snapshot_request req s).2.2.current_term = s.current_term := by
  unfold handle_install_snapshot_request
  cases hs : req.server_id with
  | none => rfl
  | some sid =>
    dsimp only
    split_ifs <;> try rfl
    all_goals
      cases hp : parsePeers req.peers <;> simp [hp, step_down]

/-! ## C1 — term monotonicity of the node operations -/

/-- C1 fails on the code as stated: `set_peer` with an empty configuration and
empty `old_peers` takes the bootstrap branch and calls `step_down(1)`, which
assigns `current_term = 1`; on a node whose persisted term is 2 this lowers
`current_term` from 2 to 1. -/
theorem C1_counterexample :
    exC1.conf = [] ∧ exC1.current_term = 2 ∧
      (set_peer [] [1] exC1).1 = 0 ∧
      (set_peer [] [1] exC1).2.current_term < exC1.current_term := by decide

/-- C1 (amended): every listed handler leaves `current_term` no smaller than
before, and `set_peer` does so as well except on its bootstrap branch (empty
configuration and empty `old_peers`), where it sets `current_term` to exactly
1 — lowering it whenever the term was at least 2. -/
theorem C1_amended :
    (∀ (req : RequestVoteReq) (s : NodeSt),
        s.current_term ≤ (handle_request_vote_request req s).2.2.current_term) ∧
    (∀ (req : AppendEntriesReq) (buf : List Nat) (now : Int) (s : NodeSt),
        s.current_term ≤ (handle_append_entries_request req buf now s).2.2.current_term) ∧
    (∀ (req : InstallSnapshotReq) (s : NodeSt),
        s.current_term ≤ (handle_install_snapshot_request req s).2.2.current_term) ∧
    (∀ (peer : PeerId) (term resTerm : Int) (granted : Bool) (s : NodeSt),
        s.current_term ≤ (handle_request_vote_response peer term resTerm granted s).current_term) ∧
    (∀ (old_peers new_peers : List PeerId) (s : NodeSt),
        s.current_term ≤ (set_peer old_peers new_peers s).2.current_term ∨
          (s.conf = [] ∧ old_peers = [] ∧ (set_peer old_peers new_peers s).2.current_term = 1)) := by
  refine ⟨?_, ?_, ?_, ?_, ?_⟩
  · intro req s
    unfold handle_request_vote_request
    cases hs : req.server_id with
    | none => simp
    | some cand =>
      simp only
      split_ifs <;> simp [step_down] <;> omega
  · intro req buf now s
    unfold handle_append_entries_request
    cases hs : req.server_id with
    | none => simp
    | some sid =>
      dsimp only
      have hmain : s.current_term ≤ (ae_main sid req buf s).2.current_term := by
        unfold ae_main
        dsimp only
        split_ifs with h1 h2 h3
        · exact le_refl _
        · simpa using ae_stepdown_current_term_ge req s (by omega)
        · simpa using ae_stepdown_current_term_ge req s (by omega)
        · simpa using ae_stepdown_current_term_ge req s (by omega)
      split_ifs <;> simpa using hmain
  · intro req s
    rw [install_current_term]
  · intro peer term resTerm granted s
    unfold handle_request_vote_response
    dsimp only
    split_ifs <;> simp [step_down] <;> omega
  · intro old_peers new_peers s
    unfold set_peer
    dsimp only
    split_ifs
    all_goals try exact Or.inl (le_refl _)
    all_goals
      first
        | exact Or.inl (le_of_lt (lt_add_one s.current_term))
        | (rename_i hb; exact Or.inr ⟨hb.1, hb.2, rfl⟩)

/-! ## C3 — vote requests while a leader is trusted -/

/-- C3 fails on the code as stated: with a non-empty `leader_id` the handler
skips the whole vote block but still answers
`granted = (request.term == current_term && voted_for == candidate)`, so the
already-voted-for candidate re-asking in the same term is granted. -/
theorem C3_counterexample :
    exC3.leader_id ≠ none ∧
      (handle_request_vote_request reqC3 exC3).2.1 = some ⟨5, true⟩ := by decide

/-- C3 (amended): when `leader_id` is non-empty the handler mutates nothing
(no step-down, no vote recorded) and replies with the current term and
`granted = (request.term == current_term && voted_for == candidate)`; the
response is therefore `granted = false` unless the candidate already holds the
node's vote in the request's term. -/
theorem C3_amended (req : RequestVoteReq) (s : NodeSt) (cand : PeerId)
    (h1 : req.server_id = some cand) (h2 : s.leader_id ≠ none) :
    handle_request_vote_request req s =
      (0, some ⟨s.current_term, decide (req.term = s.current_term ∧ s.voted_id = some cand)⟩,
        s) := by
  unfold handle_request_vote_request
  rw [h1]
  simp [h2]

/-- Witness for C3 (amended) at the concrete state of the counterexample. -/
theorem C3_amended_witness :
    reqC3.server_id = some 2 ∧ exC3.leader_id ≠ none ∧
      handle_request_vote_request reqC3 exC3 =
        (0, some ⟨exC3.current_term,
            decide (reqC3.term = exC3.current_term ∧ exC3.voted_id = some 2)⟩, exC3) :=
  ⟨rfl, by decide, C3_amended reqC3 exC3 2 rfl (by decide)⟩

/-! ## C6 — stale snapshot saves -/

/-- C6: a completion whose `last_included_index` does not exceed the local
snapshot index returns `ESTALE`, records the error on the writer, changes
nothing but `snapshot_saving`, and `snapshot_saving` is cleared by every
completion. -/
theorem C6_stale (s : NodeSt) (lii : Int) (h : lii ≤ s.last_snapshot_index) :
    on_snapshot_save_done lii s = (ESTALE, true, { s with snapshot_saving := false }) ∧
      ∀ (t : Int) (u : NodeSt), (on_snapshot_save_done t u).2.2.snapshot_saving = false := by
  constructor
  · unfold on_snapshot_save_done
    rw [if_pos h]
  · intro t u
    unfold on_snapshot_save_done
    split <;> rfl

/-- Witness for C6 at a node with snapshot index 10 and a save completing with
`last_included_index = 5` (and a non-stale completion at 20 also clearing the
flag). -/
theorem C6_stale_witness :
    (5 : Int) ≤ exC6.last_snapshot_index ∧
      on_snapshot_save_done 5 exC6 = (ESTALE, true, { exC6 with snapshot_saving := false }) ∧
      (on_snapshot_save_done 20 exC6).2.2.snapshot_saving = false :=
  ⟨by decide, (C6_stale exC6 5 (by decide)).1, (C6_stale exC6 5 (by decide)).2 20 exC6⟩

/-! ## C7 — `set_peer` with a non-empty configuration -/

theorem EINVAL_ne_zero : EINVAL ≠ 0 := by norm_num [EINVAL]

theorem confEqual_mem {c l : List PeerId} (h : confEqual c l = true) (x : PeerId) :
    x ∈ c ↔ x ∈ l := by
  unfold confEqual at h
  rw [Bool.and_eq_true, List.all_eq_true, List.all_eq_true] at h
  constructor
  · intro hx
    simpa using h.1 x hx
  · intro hx
    simpa using h.2 x hx

theorem set_peer_reject_aux {c old_peers new_peers : List PeerId}
    (heq : confEqual c old_peers = true) (hco : confContain c new_peers = true)
    (hq : ¬ new_peers.length ≥ old_peers.length / 2 + 1) :
    ¬ (new_peers.length ≥ old_peers.length / 2 + 1 ∨
        confContain old_peers new_peers = false ∨ confEqual c old_peers = false) := by
  rintro (hbad | hbad | hbad)
  · exact hq hbad
  · have hli : confContain old_peers new_peers = true := by
      unfold confContain at hco ⊢
      rw [List.all_eq_true] at hco ⊢
      intro x hx
      have hmem := hco x hx
      simp only [decide_eq_true_eq] at hmem ⊢
      exact (confEqual_mem heq x).mp hmem
    rw [hli] at hbad
    cases hbad
  · rw [heq] at hbad
    cases hbad

/-- C7: with a non-empty current configuration, `set_peer` rejects (non-zero
result) whenever `new_peers` reaches the old quorum size, is not contained in
`old_peers`, or `old_peers` differs from the current configuration; and an
accepted call steps down to `current_term + 1` as a follower with exactly
`new_peers` as the configuration. -/
theorem C7_set_peer (s : NodeSt) (old_peers new_peers : List PeerId) (h : s.conf ≠ []) :
    ((new_peers.length ≥ old_peers.length / 2 + 1 ∨
        confContain old_peers new_peers = false ∨ confEqual s.conf old_peers = false) →
      (set_peer old_peers new_peers s).1 ≠ 0) ∧
    ((set_peer old_peers new_peers s).1 = 0 →
      (set_peer old_peers new_peers s).2.current_term = s.current_term + 1 ∧
      (set_peer old_peers new_peers s).2.state = NodeState.FOLLOWER ∧
      (set_peer old_peers new_peers s).2.conf = new_peers) := by
  unfold set_peer
  dsimp only
  rw [if_neg (fun hc : s.conf = [] ∧ old_peers = [] => h hc.1)]
  split_ifs
  all_goals try exact ⟨fun _ => EINVAL_ne_zero, fun h0 => absurd h0 EINVAL_ne_zero⟩
  rename_i h3 h4 h5
  exact ⟨fun hbad => absurd hbad (set_peer_reject_aux h3 h5 h4), fun _ => ⟨rfl, rfl, rfl⟩⟩

/-- Witness for C7: accepting `set_peer([1,2,3] → [1])` at term 4 yields term
5 with configuration `[1]`; the rejection direction is exercised vacuously. -/
theorem C7_set_peer_witness :
    exC7.conf ≠ [] ∧
      (((([1] : List PeerId).length ≥ ([1, 2, 3] : List PeerId).length / 2 + 1 ∨
          confContain [1, 2, 3] [1] = false ∨ confEqual exC7.conf [1, 2, 3] = false) →
        (set_peer [1, 2, 3] [1] exC7).1 ≠ 0) ∧
      ((set_peer [1, 2, 3] [1] exC7).1 = 0 →
        (set_peer [1, 2, 3] [1] exC7).2.current_term = exC7.current_term + 1 ∧
        (set_peer [1, 2, 3] [1] exC7).2.state = NodeState.FOLLOWER ∧
        (set_peer [1, 2, 3] [1] exC7).2.conf = [1])) :=
  ⟨by decide, C7_set_peer exC7 [1, 2, 3] [1] (by decide)⟩

/-! ## C8 — conf-change serialization -/

/-- C8 fails on the code as stated: `set_peer` tests its bootstrap branch
before the conf-change-in-flight check, so on a leader whose configuration is
empty it succeeds and installs `new_peers` even while `conf_ctx` is
non-empty. -/
theorem C8_counterexample :
    exC8.conf_ctx ≠ [] ∧ exC8.state = NodeState.LEADER ∧
      (set_peer [] [1] exC8).1 = 0 ∧ (set_peer [] [1] exC8).2.conf = [1] := by decide

/-- C8 (amended): while `conf_ctx` is non-empty, `add_peer` and `remove_peer`
always report a non-zero code to `done` without appending an entry or touching
the state, and `set_peer` on a leader does the same unless both the current
configuration and `old_peers` are empty, in which case the bootstrap branch
runs and succeeds. -/
theorem C8_amended (s : NodeSt) (old_peers : List PeerId) (p : PeerId)
    (new_peers : List PeerId) (h : s.conf_ctx ≠ []) :
    (∃ e, (add_peer old_peers p s).done_code = some e ∧ e ≠ 0) ∧
    (add_peer old_peers p s).appended = none ∧ (add_peer old_peers p s).s = s ∧
    (∃ e, (remove_peer old_peers p s).done_code = some e ∧ e ≠ 0) ∧
    (remove_peer old_peers p s).appended = none ∧ (remove_peer old_peers p s).s = s ∧
    (s.state = NodeState.LEADER → ¬ (s.conf = [] ∧ old_peers = []) →
      (set_peer old_peers new_peers s).1 ≠ 0 ∧ (set_peer old_peers new_peers s).2 = s) := by
  have hadd : ∀ u : NodeSt, u.conf_ctx ≠ [] →
      add_peer old_peers p u = ⟨some EPERM, none, u⟩ ∨
        add_peer old_peers p u = ⟨some EINVAL, none, u⟩ := by
    intro u hu
    unfold add_peer
    split_ifs <;> first | exact Or.inl rfl | exact Or.inr rfl
  have hrem : ∀ u : NodeSt, u.conf_ctx ≠ [] →
      remove_peer old_peers p u = ⟨some EPERM, none, u⟩ ∨
        remove_peer old_peers p u = ⟨some EAGAIN, none, u⟩ := by
    intro u hu
    unfold remove_peer
    split_ifs <;> first | exact Or.inl rfl | exact Or.inr rfl
  refine ⟨?_, ?_, ?_, ?_, ?_, ?_, ?_⟩
  · rcases hadd s h with ha | ha <;> rw [ha]
    · exact ⟨EPERM, rfl, by norm_num [EPERM]⟩
    · exact ⟨EINVAL, rfl, by norm_num [EINVAL]⟩
  · rcases hadd s h with ha | ha <;> rw [ha]
  · rcases hadd s h with ha | ha <;> rw [ha]
  · rcases hrem s h with ha | ha <;> rw [ha]
    · exact ⟨EPERM, rfl, by norm_num [EPERM]⟩
    · exact ⟨EAGAIN, rfl, by norm_num [EAGAIN]⟩
  · rcases hrem s h with ha | ha <;> rw [ha]
  · rcases hrem s h with ha | ha <;> rw [ha]
  · intro hl hb
    unfold set_peer
    rw [if_neg (by simp [hl]), if_neg hb, if_pos ⟨hl, h⟩]
    exact ⟨by norm_num [EINVAL], rfl⟩

/-- Witness for C8 (amended) on a two-peer leader with a conf-change in
flight. -/
theorem C8_amended_witness :
    exC8w.conf_ctx ≠ [] ∧
      ((∃ e, (add_peer [1, 2] 3 exC8w).done_code = some e ∧ e ≠ 0) ∧
      (add_peer [1, 2] 3 exC8w).appended = none ∧ (add_peer [1, 2] 3 exC8w).s = exC8w ∧
      (∃ e, (remove_peer [1, 2] 3 exC8w).done_code = some e ∧ e ≠ 0) ∧
      (remove_peer [1, 2] 3 exC8w).appended = none ∧
      (remove_peer [1, 2] 3 exC8w).s = exC8w ∧
      (exC8w.state = NodeState.LEADER → ¬ (exC8w.conf = [] ∧ ([1, 2] : List PeerId) = []) →
        (set_peer [1, 2] [1] exC8w).1 ≠ 0 ∧ (set_peer [1, 2] [1] exC8w).2 = exC8w)) :=
  ⟨by decide, C8_amended exC8w [1, 2] 3 [1] (by decide)⟩

/-! ## C2 — InstallSnapshot step-down keeps the local term -/

/-- C2 fails on the code as stated: the handler calls
`step_down(_current_term)` (`node.cpp:1515`) rather than
`step_down(request->term())`, so a term-5 request at a term-3 follower leaves
`current_term` at 3 and the response carries 3, not 5. -/
theorem C2_counterexample :
    reqC2.term > exC2.current_term ∧
      (handle_install_snapshot_request reqC2 exC2).2.2.current_term ≠ reqC2.term ∧
      (handle_install_snapshot_request reqC2 exC2).2.1 = some ⟨3, false⟩ := by decide

/-- C2 (amended): under the trigger condition the node does step down and ends
as a follower, but at its own term: `current_term` is unchanged and the
response carries that unchanged term. -/
theorem C2_amended (req : InstallSnapshotReq) (s : NodeSt) (sid : PeerId)
    (h1 : req.server_id = some sid) (h2 : s.loading_snapshot_meta = none)
    (h3 : s.current_term ≤ req.term)
    (h4 : req.term > s.current_term ∨ s.state ≠ NodeState.FOLLOWER) :
    (handle_install_snapshot_request req s).2.2.state = NodeState.FOLLOWER ∧
    (handle_install_snapshot_request req s).2.2.current_term = s.current_term ∧
    ∃ res, (handle_install_snapshot_request req s).2.1 = some res ∧
      res.term = s.current_term := by
  unfold handle_install_snapshot_request
  rw [h1]
  dsimp only
  rw [if_neg (by simp [h2]), if_neg (by omega), if_pos h4]
  have hld : (step_down s.current_term s).leader_id = none := rfl
  rw [if_pos hld]
  split_ifs with hdup
  · exact ⟨rfl, rfl, _, rfl, rfl⟩
  · cases hp : parsePeers req.peers with
    | none => exact ⟨rfl, rfl, _, rfl, rfl⟩
    | some ps => exact ⟨rfl, rfl, _, rfl, rfl⟩

/-- Witness for C2 (amended) at the counterexample's concrete input. -/
theorem C2_amended_witness :
    reqC2.server_id = some 2 ∧ exC2.loading_snapshot_meta = none ∧
      exC2.current_term ≤ reqC2.term ∧
      (reqC2.term > exC2.current_term ∨ exC2.state ≠ NodeState.FOLLOWER) ∧
      ((handle_install_snapshot_request reqC2 exC2).2.2.state = NodeState.FOLLOWER ∧
        (handle_install_snapshot_request reqC2 exC2).2.2.current_term = exC2.current_term ∧
        ∃ res, (handle_install_snapshot_request reqC2 exC2).2.1 = some res ∧
          res.term = exC2.current_term) :=
  ⟨rfl, rfl, by decide, by decide, C2_amended reqC2 exC2 2 rfl rfl (by decide) (by decide)⟩

/-! ## C4 — the vote-granting rule -/

/-- C4 fails on the code as stated: a stale-term request (`term 1` at a term-5
node) breaks out before the save step, so even with `log_is_ok` and an empty
`voted_for` the vote is not recorded — "voted_for is set to the candidate
exactly when log_is_ok holds and voted_for is empty" is violated. -/
theorem C4_counterexample :
    exC4.leader_id = none ∧ logIsOk reqC4 exC4 ∧ exC4.voted_id = none ∧
      reqC4.term < exC4.current_term ∧
      (handle_request_vote_request reqC4 exC4).2.2.voted_id = none ∧
      (handle_request_vote_request reqC4 exC4).2.1 = some ⟨5, false⟩ := by decide

/-- C4 (amended): with empty `leader_id`, a request above the current term
first steps the node down to the request's term (clearing `voted_for`);
`voted_for` is then set to the candidate exactly when the request's term is at
least the current term (the stale-term check passed), `log_is_ok` holds and
`voted_for` is empty after any step-down; and the response carries the final
term with `granted = (request.term == current_term AND voted_for ==
candidate_id)`. -/
theorem C4_amended (req : RequestVoteReq) (s : NodeSt) (cand : PeerId)
    (h1 : req.server_id = some cand) (h2 : s.leader_id = none) :
    (handle_request_vote_request req s).1 = 0 ∧
    (handle_request_vote_request req s).2.2.current_term =
      (if req.term > s.current_term then req.term else s.current_term) ∧
    (handle_request_vote_request req s).2.2.voted_id =
      (if req.term ≥ s.current_term ∧ logIsOk req s ∧
          (if req.term > s.current_term then none else s.voted_id) = (none : Option PeerId)
        then some cand
        else if req.term > s.current_term then none else s.voted_id) ∧
    ∃ res, (handle_request_vote_request req s).2.1 = some res ∧
      res.term = (handle_request_vote_request req s).2.2.current_term ∧
      (res.granted = true ↔
        req.term = (handle_request_vote_request req s).2.2.current_term ∧
          (handle_request_vote_request req s).2.2.voted_id = some cand) := by
  unfold handle_request_vote_request
  rw [h1]
  dsimp only
  rw [if_neg (by simp [h2])]
  by_cases ha : req.term ≥ s.current_term
  · rw [if_pos ha]
    by_cases hb : req.term > s.current_term
    · rw [if_pos hb]
      by_cases hok : logIsOk req s
      · rw [if_pos ⟨hok, rfl⟩]
        exact ⟨rfl, by simp [step_down, hb], by simp [step_down, ha, hb, hok], _, rfl, rfl,
          by simp [step_down]⟩
      · rw [if_neg (fun hc => hok hc.1)]
        exact ⟨rfl, by simp [step_down, hb], by simp [step_down, hb, hok], _, rfl, rfl,
          by simp [step_down]⟩
    · rw [if_neg hb]
      by_cases hcv : logIsOk req s ∧ s.voted_id = none
      · rw [if_pos hcv]
        exact ⟨rfl, by simp [hb], by simp [ha, hb, hcv.1, hcv.2], _, rfl, rfl, by simp⟩
      · rw [if_neg hcv]
        refine ⟨rfl, by simp [hb], ?_, _, rfl, rfl, by simp⟩
        rw [if_neg (fun hc => hcv ⟨hc.2.1, by have h5 := hc.2.2; rwa [if_neg hb] at h5⟩),
          if_neg hb]
  · rw [if_neg ha]
    have hb : ¬ req.term > s.current_term := by omega
    refine ⟨rfl, by simp [hb], ?_, _, rfl, rfl, by simp⟩
    rw [if_neg (fun hc => ha hc.1), if_neg hb]

/-- Witness for C4 (amended): a fresh candidate with an up-to-date log at a
higher term is granted the vote. -/
theorem C4_amended_witness :
    reqC4.server_id = some 2 ∧ exC4.leader_id = none ∧
      ((handle_request_vote_request reqC4 exC4).1 = 0 ∧
      (handle_request_vote_request reqC4 exC4).2.2.current_term =
        (if reqC4.term > exC4.current_term then reqC4.term else exC4.current_term) ∧
      (handle_request_vote_request reqC4 exC4).2.2.voted_id =
        (if reqC4.term ≥ exC4.current_term ∧ logIsOk reqC4 exC4 ∧
            (if reqC4.term > exC4.current_term then none else exC4.voted_id) =
              (none : Option PeerId)
          then some 2
          else if reqC4.term > exC4.current_term then none else exC4.voted_id) ∧
      ∃ res, (handle_request_vote_request reqC4 exC4).2.1 = some res ∧
        res.term = (handle_request_vote_request reqC4 exC4).2.2.current_term ∧
        (res.granted = true ↔
          reqC4.term = (handle_request_vote_request reqC4 exC4).2.2.current_term ∧
            (handle_request_vote_request reqC4 exC4).2.2.voted_id = some 2)) :=
  ⟨rfl, rfl, C4_amended reqC4 exC4 2 rfl rfl⟩

/-! ## C5 — snapshot-load log reconciliation -/

theorem entries_eq_nil_iff (l : LogMgr) : l.entries = [] ↔ lastLog l < l.first := by
  unfold lastLog
  rw [← List.length_eq_zero]
  omega

/-- In the discard branch of `on_snapshot_load_done`, the prefix-then-suffix
truncation pair leaves an empty log whose first index is beyond the snapshot. -/
theorem discard_aux (lsi : Int) (l : LogMgr) (h : lastLog l < lsi ∨ l.first ≤ lsi) :
    (truncate_suffix lsi ( truncate_prefix (lsi + 1) l)).entries = [] ∧
      lsi < (truncate_suffix lsi ( truncate_prefix (lsi + 1) l)).first := by
  unfold truncate_prefix
  split_ifs with h1
  · have hl : lastLog l < lsi := by
      rcases h with h | h
      · exact h
      · omega
    unfold truncate_suffix
    rw [if_pos (le_of_lt hl)]
    refine ⟨(entries_eq_nil_iff l).2 ?_, by omega⟩
    omega
  · unfold truncate_suffix
    dsimp only
    split_ifs with h2
    · refine ⟨?_, by dsimp only; omega⟩
      rw [← List.length_eq_zero, List.length_drop]
      unfold lastLog at h2
      simp only [List.length_drop] at h2
      omega
    · refine ⟨?_, by dsimp only; omega⟩
      have h3 : (lsi + 1 - (lsi + 1)).toNat = 0 := by omega
      rw [h3, List.take_zero]

/-- C5 fails on the code as stated: when `last_snapshot_index` lies below
`first_log_index` the log holds no entry at that index, yet neither branch of
`on_snapshot_load_done` touches the log — it is not discarded.  (This is the
normal reboot situation: the log prefix covered by the snapshot was already
truncated, so `first_log_index = last_snapshot_index + 1` or beyond.) -/
theorem C5_counterexample :
    exC5.loading_snapshot_meta = some ⟨5, 2, [1]⟩ ∧
      (5 : Int) < exC5.log.first ∧
      (on_snapshot_load_done exC5).log = exC5.log ∧
      (on_snapshot_load_done exC5).log.entries ≠ [] := by decide

/-- C5 (amended): after `on_snapshot_load_done`, `last_snapshot_index` and
`last_snapshot_term` come from the pending meta; the entire log is discarded
exactly when the log is shorter than the snapshot or disagrees with it at
`last_snapshot_index` (`last_log_index < lsi`, or `first_log_index ≤ lsi` with
`get_term(lsi) ≠ lst`); when `lsi < first_log_index` the log is untouched, and
otherwise only the prefix up to `lsi` is truncated; afterwards
`lsi < first_log_index` or the log is empty, `get_term(lsi) = lst` whenever
that index is present (vacuously), and the pending index is `lsi + 1`. -/
theorem C5_amended (s : NodeSt) (meta : SnapshotMeta)
    (h : s.loading_snapshot_meta = some meta) :
    (on_snapshot_load_done s).last_snapshot_index = meta.last_included_index ∧
    (on_snapshot_load_done s).last_snapshot_term = meta.last_included_term ∧
    ((lastLog s.log < meta.last_included_index ∨
        (s.log.first ≤ meta.last_included_index ∧
          getTerm s.log meta.last_included_index ≠ meta.last_included_term)) →
      (on_snapshot_load_done s).log.entries = []) ∧
    (¬ (lastLog s.log < meta.last_included_index ∨
        (s.log.first ≤ meta.last_included_index ∧
          getTerm s.log meta.last_included_index ≠ meta.last_included_term)) →
      meta.last_included_index < s.log.first → (on_snapshot_load_done s).log = s.log) ∧
    (¬ (lastLog s.log < meta.last_included_index ∨
        (s.log.first ≤ meta.last_included_index ∧
          getTerm s.log meta.last_included_index ≠ meta.last_included_term)) →
      s.log.first ≤ meta.last_included_index →
      (on_snapshot_load_done s).log = truncate_prefix (meta.last_included_index + 1) s.log) ∧
    (meta.last_included_index < (on_snapshot_load_done s).log.first ∨
      (on_snapshot_load_done s).log.entries = []) ∧
    ((on_snapshot_load_done s).log.first ≤ meta.last_included_index →
      meta.last_included_index ≤ lastLog (on_snapshot_load_done s).log →
      getTerm (on_snapshot_load_done s).log meta.last_included_index =
        meta.last_included_term) ∧
    (on_snapshot_load_done s).pending_index = meta.last_included_index + 1 ∧
    (on_snapshot_load_done s).loading_snapshot_meta = none := by
  unfold on_snapshot_load_done
  rw [h]
  dsimp only
  by_cases hd : lastLog s.log < meta.last_included_index ∨
      (s.log.first ≤ meta.last_included_index ∧
        getTerm s.log meta.last_included_index ≠ meta.last_included_term)
  · rw [if_pos hd]
    have haux := discard_aux meta.last_included_index s.log
      (by rcases hd with hd | hd
          · exact Or.inl hd
          · exact Or.inr hd.1)
    rw [if_neg (by omega)]
    refine ⟨by simp, by simp, fun _ => by simpa using haux.1, fun hnd => absurd hd hnd,
      fun hnd => absurd hd hnd, Or.inr (by simpa using haux.1), ?_, by simp, by simp⟩
    intro hf hla
    have h1 := haux.1
    have h2 := haux.2
    simp only [casc_log] at hf hla
    rw [entries_eq_nil_iff] at h1
    omega
  · rw [if_neg hd]
    by_cases hf : s.log.first ≤ meta.last_included_index
    · rw [if_pos hf]
      have hfirst : ( truncate_prefix (meta.last_included_index + 1) s.log).first =
          meta.last_included_index + 1 := by
        unfold truncate_prefix
        rw [if_neg (by omega)]

      refine ⟨by simp, by simp, fun hdd => absurd hdd hd, fun _ hlt => absurd hf (by omega),
        fun _ _ => by simp, Or.inl (by simp [hfirst]), ?_, by simp, by simp⟩
      intro hcon
      simp only [casc_log, hfirst] at hcon
      omega
    · rw [if_neg hf]
      refine ⟨by simp, by simp, fun hdd => absurd hdd hd, fun _ _ => by simp,
        fun _ hff => absurd hff hf, Or.inl (by simpa using (by omega : meta.last_included_index < s.log.first)),
        ?_, by simp, by simp⟩
      intro hcon
      simp only [casc_log] at hcon
      omega

/-- Witness for C5 (amended) at the counterexample's state: the pending meta is
adopted, the log (entirely above the snapshot index) is untouched, and the
pending index becomes 6. -/
theorem C5_amended_witness :
    exC5.loading_snapshot_meta = some ⟨5, 2, [1]⟩ ∧
      (on_snapshot_load_done exC5).last_snapshot_index = (5 : Int) ∧
      (on_snapshot_load_done exC5).pending_index = (6 : Int) ∧
      ((5 : Int) < (on_snapshot_load_done exC5).log.first ∨
        (on_snapshot_load_done exC5).log.entries = []) := by
  have hmain := C5_amended exC5 ⟨5, 2, [1]⟩ rfl
  exact ⟨rfl, hmain.1, by decide, hmain.2.2.2.2.2.1⟩

/-! ## C10 — frame of AppendEntries replies -/

@[simp]
theorem step_down_committed (t : Int) (s : NodeSt) :
    (step_down t s).committed_index = s.committed_index := rfl

@[simp]
theorem step_down_timestamp (t : Int) (s : NodeSt) :
    (step_down t s).last_leader_timestamp = s.last_leader_timestamp := rfl

@[simp]
theorem ae_stepdown_log (req : AppendEntriesReq) (s : NodeSt) :
    (ae_stepdown req s).log = s.log := by
  unfold ae_stepdown
  split <;> rfl

@[simp]
theorem ae_stepdown_committed (req : AppendEntriesReq) (s : NodeSt) :
    (ae_stepdown req s).committed_index = s.committed_index := by
  unfold ae_stepdown
  split <;> rfl

@[simp]
theorem ae_stepdown_timestamp (req : AppendEntriesReq) (s : NodeSt) :
    (ae_stepdown req s).last_leader_timestamp = s.last_leader_timestamp := by
  unfold ae_stepdown
  split <;> rfl

@[simp]
theorem ae_adopt_log (sid : PeerId) (s : NodeSt) : (ae_adopt_leader sid s).log = s.log := by
  unfold ae_adopt_leader
  split <;> rfl

@[simp]
theorem ae_adopt_committed (sid : PeerId) (s : NodeSt) :
    (ae_adopt_leader sid s).committed_index = s.committed_index := by
  unfold ae_adopt_leader
  split <;> rfl

@[simp]
theorem ae_adopt_timestamp (sid : PeerId) (s : NodeSt) :
    (ae_adopt_leader sid s).last_leader_timestamp = s.last_leader_timestamp := by
  unfold ae_adopt_leader
  split <;> rfl

@[simp]
theorem ae_do_append_committed (req : AppendEntriesReq) (buf : List Nat) (s : NodeSt) :
    (ae_do_append req buf s).committed_index = s.committed_index := by
  unfold ae_do_append
  dsimp only
  split <;> simp

@[simp]
theorem ae_do_append_timestamp (req : AppendEntriesReq) (buf : List Nat) (s : NodeSt) :
    (ae_do_append req buf s).last_leader_timestamp = s.last_leader_timestamp := by
  unfold ae_do_append
  dsimp only
  split <;> simp

@[simp]
theorem ae_main_committed (sid : PeerId) (req : AppendEntriesReq) (buf : List Nat)
    (s : NodeSt) : (ae_main sid req buf s).2.committed_index = s.committed_index := by
  unfold ae_main
  dsimp only
  split_ifs <;> simp

@[simp]
theorem ae_main_timestamp (sid : PeerId) (req : AppendEntriesReq) (buf : List Nat)
    (s : NodeSt) :
    (ae_main sid req buf s).2.last_leader_timestamp = s.last_leader_timestamp := by
  unfold ae_main
  dsimp only
  split_ifs <;> simp

/-- C10: every `AppendEntries` reply carries the handler's final
`current_term` and `last_log_index`; a `success = false` reply leaves
`last_leader_timestamp` and the commit manager's committed index untouched,
and only a `success = true` reply refreshes the timestamp and feeds
`committed_index` through `set_last_committed_index`. -/
theorem C10_frame (req : AppendEntriesReq) (buf : List Nat) (now : Int) (s : NodeSt)
    (sid : PeerId) (h : req.server_id = some sid) :
    ∃ res, (handle_append_entries_request req buf now s).2.1 = some res ∧
      res.term = (handle_append_entries_request req buf now s).2.2.current_term ∧
      res.last_log_index = lastLog (handle_append_entries_request req buf now s).2.2.log ∧
      (res.success = false →
        (handle_append_entries_request req buf now s).2.2.last_leader_timestamp =
            s.last_leader_timestamp ∧
          (handle_append_entries_request req buf now s).2.2.committed_index =
            s.committed_index) ∧
      (res.success = true →
        (handle_append_entries_request req buf now s).2.2.last_leader_timestamp = now ∧
          (handle_append_entries_request req buf now s).2.2.committed_index =
            max s.committed_index req.committed_index) := by
  unfold handle_append_entries_request
  rw [h]
  dsimp only
  split_ifs with hp
  · exact ⟨_, rfl, rfl, rfl, fun hf => absurd hp (by simpa using hf), fun _ => ⟨rfl, by simp⟩⟩
  · exact ⟨_, rfl, rfl, rfl, fun _ => ⟨by simp, by simp⟩, fun ht => absurd ht (by simpa using hp)⟩

/-- Witness for C10: a heartbeat at the base state advances the committed
index to 7 and stamps the leader timestamp. -/
theorem C10_frame_witness :
    reqC10.server_id = some 3 ∧
      ∃ res, (handle_append_entries_request reqC10 [] 5 exBase).2.1 = some res ∧
        res.term = (handle_append_entries_request reqC10 [] 5 exBase).2.2.current_term ∧
        res.last_log_index =
          lastLog (handle_append_entries_request reqC10 [] 5 exBase).2.2.log ∧
        (res.success = false →
          (handle_append_entries_request reqC10 [] 5 exBase).2.2.last_leader_timestamp =
              exBase.last_leader_timestamp ∧
            (handle_append_entries_request reqC10 [] 5 exBase).2.2.committed_index =
              exBase.committed_index) ∧
        (res.success = true →
          (handle_append_entries_request reqC10 [] 5 exBase).2.2.last_leader_timestamp = 5 ∧
            (handle_append_entries_request reqC10 [] 5 exBase).2.2.committed_index =
              max exBase.committed_index reqC10.committed_index) :=
  ⟨rfl, C10_frame reqC10 [] 5 exBase 3 rfl⟩

/-! ## C9 — duplicate delivery of AppendEntries: log and index arithmetic -/

theorem appendBatch_nil (l : LogMgr) : appendBatch l [] = l := by
  unfold appendBatch
  simp

theorem lastLog_appendBatch (l : LogMgr) (b : List LogEntry) :
    lastLog (appendBatch l b) = lastLog l + b.length := by
  unfold appendBatch lastLog
  dsimp only
  rw [List.length_append]
  omega

theorem lastLog_ge_first (l : LogMgr) : l.first - 1 ≤ lastLog l := by
  unfold lastLog
  omega

theorem materialize_term (m : EntryMeta) (buf : List Nat) :
    (materialize m buf).1.term = m.term := by
  unfold materialize
  cases m.data_len <;> rfl

theorem getTerm_in_range (l : LogMgr) (j : Int) (hf : l.first ≤ j) (hj : j ≤ lastLog l) :
    getTerm l j = (l.entries.map LogEntry.term).getD (j - l.first).toNat 0 := by
  unfold getTerm
  rw [if_pos ⟨hf, hj⟩]

theorem getTerm_appendBatch_left (l : LogMgr) (b : List LogEntry) (j : Int)
    (hj : j ≤ lastLog l) : getTerm (appendBatch l b) j = getTerm l j := by
  by_cases hf : l.first ≤ j
  · have hlen : (j - l.first).toNat < l.entries.length := by
      unfold lastLog at hj
      omega
    rw [getTerm_in_range l j hf hj,
      getTerm_in_range (appendBatch l b) j hf (by rw [lastLog_appendBatch]; omega)]
    show ((l.entries ++ b).map LogEntry.term).getD (j - l.first).toNat 0 = _
    rw [List.map_append, List.getD_append]
    rw [List.length_map]
    exact hlen
  · unfold getTerm
    rw [if_neg (fun hc => hf hc.1), if_neg (fun hc => hf hc.1)]

theorem getTerm_appendBatch_at (l : LogMgr) (b : List LogEntry) (i : Nat)
    (hi : i < b.length) :
    getTerm (appendBatch l b) (lastLog l + 1 + i) = (b.map LogEntry.term).getD i 0 := by
  have hge := lastLog_ge_first l
  rw [getTerm_in_range (appendBatch l b) _ (by show l.first ≤ _; omega)
    (by rw [lastLog_appendBatch]; omega)]
  show ((l.entries ++ b).map LogEntry.term).getD (lastLog l + 1 + (i : Int) - l.first).toNat
    0 = _
  have hn : (lastLog l + 1 + i - l.first).toNat = l.entries.length + i := by
    unfold lastLog
    omega
  rw [hn, List.map_append, List.getD_append_right]
  · congr 1
    rw [List.length_map]
    omega
  · rw [List.length_map]
    omega

theorem getD_take_of_lt {α : Type} (d : α) :
    ∀ (l : List α) (n m : Nat), m < n → (l.take n).getD m d = l.getD m d
  | [], _, _, _ => by simp
  | _ :: _, 0, m, h => absurd h (Nat.not_lt_zero m)
  | a :: t, n + 1, 0, _ => by simp
  | a :: t, n + 1, m + 1, h => by
    rw [List.take_succ_cons, List.getD_cons_succ, List.getD_cons_succ]
    exact getD_take_of_lt d t n m (Nat.lt_of_succ_lt_succ h)

theorem truncate_suffix_first (k : Int) (l : LogMgr) :
    (truncate_suffix k l).first = l.first := by
  unfold truncate_suffix
  split <;> rfl

theorem lastLog_truncate_suffix (k : Int) (l : LogMgr) (h1 : l.first - 1 ≤ k)
    (h2 : k ≤ lastLog l) : lastLog (truncate_suffix k l) = k := by
  unfold truncate_suffix
  split_ifs with hc
  · unfold lastLog at hc h2 ⊢
    omega
  · unfold lastLog at hc h2 ⊢
    dsimp only
    rw [List.length_take]
    omega

theorem getTerm_truncate_suffix (k : Int) (l : LogMgr) (j : Int) (hj : j ≤ k) :
    getTerm (truncate_suffix k l) j = getTerm l j := by
  unfold truncate_suffix
  split_ifs with h1
  · rfl
  · push_neg at h1
    by_cases hf : l.first ≤ j
    · have hlast :
          lastLog { first := l.first, entries := l.entries.take (k + 1 - l.first).toNat } =
            k := by
        unfold lastLog at h1 ⊢
        dsimp only
        rw [List.length_take]
        omega
      rw [getTerm_in_range
          { first := l.first, entries := l.entries.take (k + 1 - l.first).toNat } j hf
          (by rw [hlast]; exact hj),
        getTerm_in_range l j hf (by omega)]
      dsimp only
      rw [List.map_take]
      exact getD_take_of_lt 0 _ _ _ (by omega)
    · unfold getTerm
      rw [if_neg (fun hc => hf hc.1), if_neg (fun hc => hf hc.1)]

theorem getD_eq_head_drop {α : Type} (d : α) :
    ∀ (l : List α) (i : Nat) (x : α) (t : List α), l.drop i = x :: t → l.getD i d = x
  | [], i, x, t, h => by simp at h
  | a :: l, 0, x, t, h => by cases h; rfl
  | a :: l, i + 1, x, t, h => by
    rw [List.drop_succ_cons] at h
    rw [List.getD_cons_succ]
    exact getD_eq_head_drop d l i x t h

theorem allSkippable_append :
    ∀ (metas : List EntryMeta) (L : LogMgr) (b : List LogEntry) (i : Nat),
      (b.map LogEntry.term).drop i = metas.map EntryMeta.term →
      allSkippable (appendBatch L b) (lastLog L + i) metas
  | [], _, _, _, _ => trivial
  | m :: rest, L, b, i, h => by
    have hi : i < b.length := by
      by_contra hge
      push_neg at hge
      rw [List.drop_eq_nil_of_le (by rw [List.length_map]; exact hge)] at h
      exact absurd h.symm (by simp)
    constructor
    · refine Or.inr ⟨?_, ?_⟩
      · rw [lastLog_appendBatch]
        omega
      · have harr : lastLog L + (i : Int) + 1 = lastLog L + 1 + (i : Int) := by ring
        rw [harr, getTerm_appendBatch_at L b i hi]
        exact getD_eq_head_drop 0 _ i m.term (rest.map EntryMeta.term) h
    · have h2 : (b.map LogEntry.term).drop (i + 1) = rest.map EntryMeta.term := by
        rw [← List.tail_drop, h]
        simp
      have harr : lastLog L + (i : Int) + 1 = lastLog L + ((i + 1 : Nat) : Int) := by
        push_cast
        ring
      rw [harr]
      exact allSkippable_append rest L b (i + 1) h2

theorem processEntries_batchAll :
    ∀ (metas : List EntryMeta) (prevIdx : Int) (log : LogMgr) (buf : List Nat),
      (∀ m ∈ metas, m.type ≠ EntryType.UNKNOWN) →
      lastLog log ≤ prevIdx → log.first ≤ prevIdx + 1 →
      (processEntries metas prevIdx log buf).1 = log ∧
      (processEntries metas prevIdx log buf).2.1.map LogEntry.term =
        metas.map EntryMeta.term ∧
      (processEntries metas prevIdx log buf).2.2.2 = false
  | [], _, _, _, _, _, _ => ⟨rfl, rfl, rfl⟩
  | m :: rest, prevIdx, log, buf, hu, h1, h2 => by
    have hm : m.type ≠ EntryType.UNKNOWN := hu m (List.mem_cons_self m rest)
    have hut : ∀ x ∈ rest, x.type ≠ EntryType.UNKNOWN :=
      fun x hx => hu x (List.mem_cons_of_mem m hx)
    have hIH := processEntries_batchAll rest (prevIdx + 1) log (materialize m buf).2 hut
      (by omega) (by omega)
    unfold processEntries
    dsimp only
    rw [if_neg (by omega : ¬ prevIdx + 1 < log.first),
      if_neg (fun hc : lastLog log ≥ prevIdx + 1 ∧ _ => absurd hc.1 (by omega)),
      if_neg (by omega : ¬ lastLog log ≥ prevIdx + 1), if_neg hm]
    dsimp only
    refine ⟨hIH.1, ?_, by rw [hIH.2.2]; rfl⟩
    rw [List.map_cons, materialize_term, hIH.2.1]
    rfl

theorem processEntries_allSkip :
    ∀ (metas : List EntryMeta) (prevIdx : Int) (log : LogMgr) (buf : List Nat),
      allSkippable log prevIdx metas →
      processEntries metas prevIdx log buf = (log, [], buf, false)
  | [], _, _, _, _ => rfl
  | m :: rest, prevIdx, log, buf, h => by
    obtain ⟨h1, h2⟩ := h
    unfold processEntries
    dsimp only
    by_cases hb : prevIdx + 1 < log.first
    · rw [if_pos hb]
      exact processEntries_allSkip rest (prevIdx + 1) log buf h2
    · rw [if_neg hb, if_pos
        (by rcases h1 with h1 | h1
            · exact absurd h1 hb
            · exact ⟨h1.1, h1.2⟩)]
      exact processEntries_allSkip rest (prevIdx + 1) log buf h2

theorem processEntries_spec :
    ∀ (metas : List EntryMeta) (prevIdx : Int) (log : LogMgr) (buf : List Nat),
      (∀ m ∈ metas, m.type ≠ EntryType.UNKNOWN) →
      prevIdx ≤ lastLog log →
      (peFinalLog metas prevIdx log buf).first = log.first ∧
      prevIdx ≤ lastLog (peFinalLog metas prevIdx log buf) ∧
      (∀ j, j ≤ prevIdx → getTerm (peFinalLog metas prevIdx log buf) j = getTerm log j) ∧
      allSkippable (peFinalLog metas prevIdx log buf) prevIdx metas
  | [], prevIdx, log, buf, _, hpl => by
    unfold peFinalLog processEntries
    rw [appendBatch_nil]
    exact ⟨rfl, hpl, fun j _ => rfl, trivial⟩
  | m :: rest, prevIdx, log, buf, hu, hpl => by
    have hm : m.type ≠ EntryType.UNKNOWN := hu m (List.mem_cons_self m rest)
    have hut : ∀ x ∈ rest, x.type ≠ EntryType.UNKNOWN :=
      fun x hx => hu x (List.mem_cons_of_mem m hx)
    have hgefirst := lastLog_ge_first log
    by_cases hb1 : prevIdx + 1 < log.first
    · have hstep : processEntries (m :: rest) prevIdx log buf =
          processEntries rest (prevIdx + 1) log buf := by
        simp only [processEntries]
        rw [if_pos hb1]
      have hIH := processEntries_spec rest (prevIdx + 1) log buf hut (by omega)
      unfold peFinalLog at hIH ⊢
      rw [hstep]
      refine ⟨hIH.1, by have := hIH.2.1; omega, fun j hj => hIH.2.2.1 j (by omega), ?_, ?_⟩
      · exact Or.inl (by rw [hIH.1]; exact hb1)
      · exact hIH.2.2.2
    · by_cases hb2 : lastLog log ≥ prevIdx + 1 ∧ getTerm log (prevIdx + 1) = m.term
      · have hstep : processEntries (m :: rest) prevIdx log buf =
            processEntries rest (prevIdx + 1) log buf := by
          simp only [processEntries]
          rw [if_neg hb1, if_pos hb2]
        have hIH := processEntries_spec rest (prevIdx + 1) log buf hut hb2.1
        unfold peFinalLog at hIH ⊢
        rw [hstep]
        refine ⟨hIH.1, by have := hIH.2.1; omega, fun j hj => hIH.2.2.1 j (by omega), ?_, ?_⟩
        · exact Or.inr ⟨hIH.2.1, by rw [hIH.2.2.1 (prevIdx + 1) (le_refl _)]; exact hb2.2⟩
        · exact hIH.2.2.2
      · by_cases hc : lastLog log ≥ prevIdx + 1
        · -- conflict: truncate the suffix to prevIdx, then batch everything
          have hstep : processEntries (m :: rest) prevIdx log buf =
              ((processEntries rest (prevIdx + 1) (truncate_suffix (prevIdx + 1 - 1) log)
                  (materialize m buf).2).1,
                (materialize m buf).1 ::
                  (processEntries rest (prevIdx + 1) (truncate_suffix (prevIdx + 1 - 1) log)
                    (materialize m buf).2).2.1,
                (processEntries rest (prevIdx + 1) (truncate_suffix (prevIdx + 1 - 1) log)
                  (materialize m buf).2).2.2.1,
                true ||
                  (processEntries rest (prevIdx + 1) (truncate_suffix (prevIdx + 1 - 1) log)
                    (materialize m buf).2).2.2.2) := by
            simp only [processEntries]
            rw [if_neg hb1, if_neg hb2, if_pos hc, if_neg hm]
          have harith : prevIdx + 1 - 1 = prevIdx := by ring
          rw [harith] at hstep
          have hfst := truncate_suffix_first prevIdx log
          have hlst := lastLog_truncate_suffix prevIdx log (by omega) hpl
          have hall := processEntries_batchAll rest (prevIdx + 1)
            (truncate_suffix prevIdx log) (materialize m buf).2 hut (by omega) (by omega)
          unfold peFinalLog
          rw [hstep]
          dsimp only
          rw [hall.1]
          have hmapb : (((materialize m buf).1 ::
              (processEntries rest (prevIdx + 1) (truncate_suffix prevIdx log)
                (materialize m buf).2).2.1).map LogEntry.term) =
              (m :: rest).map EntryMeta.term := by
            rw [List.map_cons, materialize_term, hall.2.1, List.map_cons]
          have hlen : ((materialize m buf).1 ::
              (processEntries rest (prevIdx + 1) (truncate_suffix prevIdx log)
                (materialize m buf).2).2.1).length = rest.length + 1 := by
            have := congrArg List.length hmapb
            simpa using this
          refine ⟨hfst, ?_, ?_, ?_⟩
          · rw [lastLog_appendBatch, hlst, hlen]
            omega
          · intro j hj
            rw [getTerm_appendBatch_left _ _ j (by omega),
              getTerm_truncate_suffix prevIdx log j hj]
          · have hask := allSkippable_append (m :: rest) (truncate_suffix prevIdx log)
              ((materialize m buf).1 ::
                (processEntries rest (prevIdx + 1) (truncate_suffix prevIdx log)
                  (materialize m buf).2).2.1) 0 (by rw [List.drop_zero]; exact hmapb)
            have harr : lastLog (truncate_suffix prevIdx log) + ((0 : Nat) : Int) =
                prevIdx := by
              rw [hlst]
              simp
            rw [harr] at hask
            exact hask
        · -- no conflict possible: the entry lies exactly one past the log end
          have hstep : processEntries (m :: rest) prevIdx log buf =
              ((processEntries rest (prevIdx + 1) log (materialize m buf).2).1,
                (materialize m buf).1 ::
                  (processEntries rest (prevIdx + 1) log (materialize m buf).2).2.1,
                (processEntries rest (prevIdx + 1) log (materialize m buf).2).2.2.1,
                false ||
                  (processEntries rest (prevIdx + 1) log (materialize m buf).2).2.2.2) := by
            simp only [processEntries]
            rw [if_neg hb1, if_neg hb2, if_neg hc, if_neg hm]
          have hlst : lastLog log = prevIdx := by omega
          have hall := processEntries_batchAll rest (prevIdx + 1) log (materialize m buf).2
            hut (by omega) (by omega)
          unfold peFinalLog
          rw [hstep]
          dsimp only
          rw [hall.1]
          have hmapb : (((materialize m buf).1 ::
              (processEntries rest (prevIdx + 1) log (materialize m buf).2).2.1).map
                LogEntry.term) = (m :: rest).map EntryMeta.term := by
            rw [List.map_cons, materialize_term, hall.2.1, List.map_cons]
          have hlen : ((materialize m buf).1 ::
              (processEntries rest (prevIdx + 1) log (materialize m buf).2).2.1).length =
              rest.length + 1 := by
            have := congrArg List.length hmapb
            simpa using this
          refine ⟨rfl, ?_, ?_, ?_⟩
          · rw [lastLog_appendBatch, hlen]
            omega
          · intro j hj
            rw [getTerm_appendBatch_left _ _ j (by omega)]
          · have hask := allSkippable_append (m :: rest) log
              ((materialize m buf).1 ::
                (processEntries rest (prevIdx + 1) log (materialize m buf).2).2.1) 0
              (by rw [List.drop_zero]; exact hmapb)
            have harr : lastLog log + ((0 : Nat) : Int) = prevIdx := by
              rw [hlst]
              simp
            rw [harr] at hask
            exact hask

/-! ## C9 — handler-level idempotence -/

theorem ae_stepdown_state (req : AppendEntriesReq) (s : NodeSt) :
    (ae_stepdown req s).state = NodeState.FOLLOWER := by
  unfold ae_stepdown
  split_ifs with hc
  · rfl
  · push_neg at hc
    exact hc.2

theorem ae_stepdown_term (req : AppendEntriesReq) (s : NodeSt)
    (h : ¬ req.term < s.current_term) : (ae_stepdown req s).current_term = req.term := by
  unfold ae_stepdown
  split_ifs with hc
  · rfl
  · push_neg at hc
    omega

theorem ae_stepdown_eq_self (req : AppendEntriesReq) (s : NodeSt)
    (h1 : ¬ req.term > s.current_term) (h2 : s.state = NodeState.FOLLOWER) :
    ae_stepdown req s = s := by
  unfold ae_stepdown
  rw [if_neg]
  rintro (hc | hc)
  · exact h1 hc
  · exact hc h2

theorem ae_adopt_eq_self (sid : PeerId) (s : NodeSt) (h : ¬ s.leader_id = none) :
    ae_adopt_leader sid s = s := by
  unfold ae_adopt_leader
  rw [if_neg h]

theorem ae_adopt_leader_ne (sid : PeerId) (s : NodeSt) :
    ¬ (ae_adopt_leader sid s).leader_id = none := by
  unfold ae_adopt_leader
  split_ifs with hc
  · simp
  · exact hc

@[simp]
theorem ae_adopt_state (sid : PeerId) (s : NodeSt) :
    (ae_adopt_leader sid s).state = s.state := by
  unfold ae_adopt_leader
  split <;> rfl

@[simp]
theorem ae_do_append_state (req : AppendEntriesReq) (buf : List Nat) (s : NodeSt) :
    (ae_do_append req buf s).state = s.state := by
  unfold ae_do_append
  dsimp only
  split <;> simp

@[simp]
theorem ae_do_append_leader (req : AppendEntriesReq) (buf : List Nat) (s : NodeSt) :
    (ae_do_append req buf s).leader_id = s.leader_id := by
  unfold ae_do_append
  dsimp only
  split <;> simp

theorem ae_do_append_log (req : AppendEntriesReq) (buf : List Nat) (s : NodeSt) :
    (ae_do_append req buf s).log =
      peFinalLog req.entries req.prev_log_index s.log buf := by
  unfold ae_do_append peFinalLog
  dsimp only
  split <;> simp

theorem ae_do_append_of_skip (req : AppendEntriesReq) (buf : List Nat) (s : NodeSt)
    (h : allSkippable s.log req.prev_log_index req.entries) :
    ae_do_append req buf s = s := by
  unfold ae_do_append
  dsimp only
  rw [processEntries_allSkip req.entries req.prev_log_index s.log buf h]
  dsimp only
  rw [if_neg (by simp), appendBatch_nil]

theorem ae_main_stale (sid : PeerId) (req : AppendEntriesReq) (buf : List Nat) (s : NodeSt)
    (h : req.term < s.current_term) : ae_main sid req buf s = (false, s) := by
  unfold ae_main
  rw [if_pos h]

theorem ae_main_gap (sid : PeerId) (req : AppendEntriesReq) (buf : List Nat) (s : NodeSt)
    (h1 : ¬ req.term < s.current_term) (h2 : req.prev_log_index > lastLog s.log) :
    ae_main sid req buf s = (false, ae_adopt_leader sid (ae_stepdown req s)) := by
  unfold ae_main
  dsimp only
  rw [if_neg h1, if_pos (by rw [ae_adopt_log, ae_stepdown_log]; exact h2)]

theorem ae_main_mismatch (sid : PeerId) (req : AppendEntriesReq) (buf : List Nat)
    (s : NodeSt) (h1 : ¬ req.term < s.current_term)
    (h2 : ¬ req.prev_log_index > lastLog s.log)
    (h3 : req.prev_log_index ≥ s.log.first ∧
      getTerm s.log req.prev_log_index ≠ req.prev_log_term) :
    ae_main sid req buf s = (false, ae_adopt_leader sid (ae_stepdown req s)) := by
  unfold ae_main
  dsimp only
  rw [if_neg h1, if_neg (by rw [ae_adopt_log, ae_stepdown_log]; exact h2),
    if_pos (by rw [ae_adopt_log, ae_stepdown_log]; exact h3)]

theorem ae_main_ok (sid : PeerId) (req : AppendEntriesReq) (buf : List Nat) (s : NodeSt)
    (h1 : ¬ req.term < s.current_term) (h2 : ¬ req.prev_log_index > lastLog s.log)
    (h3 : ¬ (req.prev_log_index ≥ s.log.first ∧
      getTerm s.log req.prev_log_index ≠ req.prev_log_term)) :
    ae_main sid req buf s =
      (true, ae_do_append req buf (ae_adopt_leader sid (ae_stepdown req s))) := by
  unfold ae_main
  dsimp only
  rw [if_neg h1, if_neg (by rw [ae_adopt_log, ae_stepdown_log]; exact h2),
    if_neg (by rw [ae_adopt_log, ae_stepdown_log]; exact h3)]

theorem ae_main_idem (sid : PeerId) (req : AppendEntriesReq) (buf : List Nat)
    (s u : NodeSt) (hk : ∀ m ∈ req.entries, m.type ≠ EntryType.UNKNOWN)
    (hct : u.current_term = (ae_main sid req buf s).2.current_term)
    (hst : u.state = (ae_main sid req buf s).2.state)
    (hld : u.leader_id = (ae_main sid req buf s).2.leader_id)
    (hlg : u.log = (ae_main sid req buf s).2.log) :
    (ae_main sid req buf u).1 = (ae_main sid req buf s).1 ∧
      (ae_main sid req buf u).2.log = (ae_main sid req buf s).2.log := by
  by_cases hstale : req.term < s.current_term
  · rw [ae_main_stale sid req buf s hstale] at hct hst hld hlg ⊢
    dsimp only at hct hst hld hlg ⊢
    rw [ae_main_stale sid req buf u (by rw [hct]; exact hstale)]
    exact ⟨rfl, hlg⟩
  · have F1 : (ae_adopt_leader sid (ae_stepdown req s)).current_term = req.term := by
      rw [ae_adopt_leader_current_term, ae_stepdown_term req s hstale]
    have F2 : (ae_adopt_leader sid (ae_stepdown req s)).state = NodeState.FOLLOWER := by
      rw [ae_adopt_state, ae_stepdown_state]
    have F3 : ¬ (ae_adopt_leader sid (ae_stepdown req s)).leader_id = none :=
      ae_adopt_leader_ne sid _
    have F4 : (ae_adopt_leader sid (ae_stepdown req s)).log = s.log := by
      rw [ae_adopt_log, ae_stepdown_log]
    by_cases hgap : req.prev_log_index > lastLog s.log
    · rw [ae_main_gap sid req buf s hstale hgap] at hct hst hld hlg ⊢
      dsimp only at hct hst hld hlg ⊢
      rw [F1] at hct
      rw [F2] at hst
      rw [F4] at hlg
      have hufix : ae_adopt_leader sid (ae_stepdown req u) = u := by
        rw [ae_stepdown_eq_self req u (by omega) hst,
          ae_adopt_eq_self sid u (by rw [hld]; exact F3)]
      rw [ae_main_gap sid req buf u (by omega) (by rw [hlg]; exact hgap), hufix]
      exact ⟨rfl, by dsimp only; rw [hlg]; exact F4.symm⟩
    · by_cases hmis : req.prev_log_index ≥ s.log.first ∧
          getTerm s.log req.prev_log_index ≠ req.prev_log_term
      · rw [ae_main_mismatch sid req buf s hstale hgap hmis] at hct hst hld hlg ⊢
        dsimp only at hct hst hld hlg ⊢
        rw [F1] at hct
        rw [F2] at hst
        rw [F4] at hlg
        have hufix : ae_adopt_leader sid (ae_stepdown req u) = u := by
          rw [ae_stepdown_eq_self req u (by omega) hst,
            ae_adopt_eq_self sid u (by rw [hld]; exact F3)]
        rw [ae_main_mismatch sid req buf u (by omega) (by rw [hlg]; exact hgap)
          (by rw [hlg]; exact hmis), hufix]
        exact ⟨rfl, by dsimp only; rw [hlg]; exact F4.symm⟩
      · rw [ae_main_ok sid req buf s hstale hgap hmis] at hct hst hld hlg ⊢
        dsimp only at hct hst hld hlg ⊢
        rw [ae_do_append_current_term, F1] at hct
        rw [ae_do_append_state, F2] at hst
        rw [ae_do_append_leader] at hld
        rw [ae_do_append_log, F4] at hlg
        have hspec := processEntries_spec req.entries req.prev_log_index s.log buf hk
          (by omega)
        have hufix : ae_adopt_leader sid (ae_stepdown req u) = u := by
          rw [ae_stepdown_eq_self req u (by omega) hst,
            ae_adopt_eq_self sid u (by rw [hld]; exact F3)]
        have hugap : ¬ req.prev_log_index > lastLog u.log := by
          rw [hlg]
          have := hspec.2.1
          omega
        have humis : ¬ (req.prev_log_index ≥ u.log.first ∧
            getTerm u.log req.prev_log_index ≠ req.prev_log_term) := by
          rw [hlg]
          rintro ⟨ha, hb⟩
          rw [hspec.1] at ha
          rw [hspec.2.2.1 req.prev_log_index (le_refl _)] at hb
          push_neg at hmis
          exact hb (hmis ha)
        rw [ae_main_ok sid req buf u (by omega) hugap humis, hufix]
        refine ⟨rfl, ?_⟩
        dsimp only
        rw [ae_do_append_of_skip req buf u (by rw [hlg]; exact hspec.2.2.2), hlg,
          ae_do_append_log, F4]

theorem handler_eq (req : AppendEntriesReq) (buf : List Nat) (now : Int) (s : NodeSt)
    (sid : PeerId) (h : req.server_id = some sid) :
    handle_append_entries_request req buf now s =
      (0,
        some ⟨(ae_main sid req buf s).2.current_term, (ae_main sid req buf s).1,
          lastLog (ae_main sid req buf s).2.log⟩,
        if (ae_main sid req buf s).1 then
          { (ae_main sid req buf s).2 with
            committed_index :=
              max (ae_main sid req buf s).2.committed_index req.committed_index
            last_leader_timestamp := now }
        else (ae_main sid req buf s).2) := by
  unfold handle_append_entries_request
  rw [h]

theorem handler_success (req : AppendEntriesReq) (buf : List Nat) (now : Int) (s : NodeSt)
    (sid : PeerId) (h : req.server_id = some sid) :
    (handle_append_entries_request req buf now s).2.1.map AppendEntriesRes.success =
      some (ae_main sid req buf s).1 := by
  rw [handler_eq req buf now s sid h]
  rfl

theorem handler_frames (req : AppendEntriesReq) (buf : List Nat) (now : Int) (s : NodeSt)
    (sid : PeerId) (h : req.server_id = some sid) :
    (handle_append_entries_request req buf now s).2.2.current_term =
        (ae_main sid req buf s).2.current_term ∧
      (handle_append_entries_request req buf now s).2.2.state =
        (ae_main sid req buf s).2.state ∧
      (handle_append_entries_request req buf now s).2.2.leader_id =
        (ae_main sid req buf s).2.leader_id ∧
      (handle_append_entries_request req buf now s).2.2.log =
        (ae_main sid req buf s).2.log := by
  rw [handler_eq req buf now s sid h]
  dsimp only
  split <;> exact ⟨rfl, rfl, rfl, rfl⟩

/-- C9 fails on the code as stated: an `UNKNOWN`-type entry is skipped without
being materialized, yet still consumes an index position, so the entry after
it is appended one slot earlier than its wire index.  Re-delivering such a
request finds the `UNKNOWN` slot term-matched (skip) but the final entry one
past the log end, and appends it again: the log grows from 1 to 2 entries
while both replies report success. -/
theorem C9_counterexample :
    (handle_append_entries_request reqC9 [] 0 exC9).2.2.log.entries.length = 1 ∧
      (handle_append_entries_request reqC9 [] 1
          (handle_append_entries_request reqC9 [] 0 exC9).2.2).2.2.log.entries.length = 2 ∧
      (handle_append_entries_request reqC9 [] 0 exC9).2.1.map AppendEntriesRes.success =
        some true ∧
      (handle_append_entries_request reqC9 [] 1
          (handle_append_entries_request reqC9 [] 0 exC9).2.2).2.1.map
          AppendEntriesRes.success = some true := by decide

/-- C9 (amended): provided every entry of the request has a known type (none
is `ENTRY_TYPE_UNKNOWN`), delivering the same `AppendEntries` request twice in
succession yields the same follower log and the same `success` flag; and in
the entries loop, an entry below `first_log_index` is skipped, as is an entry
already present at its index with the same term. -/
theorem C9_amended (req : AppendEntriesReq) (buf : List Nat) (now now2 : Int) (s : NodeSt)
    (sid : PeerId) (hs : req.server_id = some sid)
    (hk : ∀ m ∈ req.entries, m.type ≠ EntryType.UNKNOWN) :
    ((handle_append_entries_request req buf now2
        (handle_append_entries_request req buf now s).2.2).2.2.log =
      (handle_append_entries_request req buf now s).2.2.log) ∧
    ((handle_append_entries_request req buf now2
        (handle_append_entries_request req buf now s).2.2).2.1.map
        AppendEntriesRes.success =
      (handle_append_entries_request req buf now s).2.1.map AppendEntriesRes.success) ∧
    (∀ (metas : List EntryMeta) (m : EntryMeta) (prevIdx : Int) (log : LogMgr)
        (b : List Nat), prevIdx + 1 < log.first →
      processEntries (m :: metas) prevIdx log b =
        processEntries metas (prevIdx + 1) log b) ∧
    (∀ (metas : List EntryMeta) (m : EntryMeta) (prevIdx : Int) (log : LogMgr)
        (b : List Nat), lastLog log ≥ prevIdx + 1 → getTerm log (prevIdx + 1) = m.term →
      processEntries (m :: metas) prevIdx log b =
        processEntries metas (prevIdx + 1) log b) := by
  have hfr1 := handler_frames req buf now s sid hs
  have hidem := ae_main_idem sid req buf s
    (handle_append_entries_request req buf now s).2.2 hk hfr1.1 hfr1.2.1 hfr1.2.2.1
    hfr1.2.2.2
  have hfr2 := handler_frames req buf now2
    (handle_append_entries_request req buf now s).2.2 sid hs
  refine ⟨?_, ?_, ?_, ?_⟩
  · rw [hfr2.2.2.2, hfr1.2.2.2, hidem.2]
  · rw [handler_success req buf now2 _ sid hs, handler_success req buf now s sid hs,
      hidem.1]
  · intro metas m prevIdx log b hlt
    simp only [processEntries]
    rw [if_pos hlt]
  · intro metas m prevIdx log b hge hterm
    by_cases hf : prevIdx + 1 < log.first
    · simp only [processEntries]
      rw [if_pos hf]
    · simp only [processEntries]
      rw [if_neg hf, if_pos ⟨hge, hterm⟩]

/-- Witness for C9 (amended): a single-data-entry request delivered twice to a
follower, plus the two skip equations at concrete logs. -/
theorem C9_amended_witness :
    reqC9w.server_id = some 9 ∧
      (⟨1, EntryType.DATA, [], some 2⟩ : EntryMeta).type ≠ EntryType.UNKNOWN ∧
      (handle_append_entries_request reqC9w [7, 8] 1
          (handle_append_entries_request reqC9w [7, 8] 0 exC9).2.2).2.2.log =
        (handle_append_entries_request reqC9w [7, 8] 0 exC9).2.2.log ∧
      (handle_append_entries_request reqC9w [7, 8] 1
          (handle_append_entries_request reqC9w [7, 8] 0 exC9).2.2).2.1.map
          AppendEntriesRes.success =
        (handle_append_entries_request reqC9w [7, 8] 0 exC9).2.1.map
          AppendEntriesRes.success ∧
      processEntries [⟨1, EntryType.DATA, [], some 2⟩] 0 ⟨2, []⟩ [7, 8] =
        processEntries [] 1 ⟨2, []⟩ [7, 8] ∧
      processEntries [⟨1, EntryType.DATA, [], some 2⟩] 0
          ⟨1, [⟨1, EntryType.DATA, [], [7, 8]⟩]⟩ [9] =
        processEntries [] 1 ⟨1, [⟨1, EntryType.DATA, [], [7, 8]⟩]⟩ [9] := by
  have h := C9_amended reqC9w [7, 8] 0 1 exC9 9 rfl (by decide)
  exact ⟨rfl, by decide, h.1, h.2.1,
    h.2.2.1 [] ⟨1, EntryType.DATA, [], some 2⟩ 0 ⟨2, []⟩ [7, 8] (by decide),
    h.2.2.2 [] ⟨1, EntryType.DATA, [], some 2⟩ 0 ⟨1, [⟨1, EntryType.DATA, [], [7, 8]⟩]⟩ [9]
      (by decide) (by decide)⟩

end RaftNode
